import Mathlib

/-!
Shallow embedding of the `hill_vacuum_proc_macros` crate (`src/lib.rs`):
the token model, enum extraction, the semantics of the generated match
bodies, the identifier case transforms, the height-allocation pipeline of
`color_enum`, and the auxiliary array generators (`str_array`,
`meshes_indexes`).
-/

namespace HillVacuum

/-- Model of `proc_macro::TokenTree`: identifiers, punctuation characters,
literals and delimited groups (the only shapes `lib.rs` inspects). -/
inductive Tok where
  | ident (s : String)
  | punct (c : Char)
  | lit (s : String)
  | group (ts : List Tok)

/-- Model of `TokenTree::to_string()` for the token shapes the macros
compare against keywords or splice into output.  Group printing is
abbreviated: no theorem below feeds a `group` to a string context, and a
group never prints as a bare keyword identifier. -/
def tokString : Tok → String
  | .ident s => s
  | .punct c => String.singleton c
  | .lit s => s
  | .group _ => "(group)"

/-- A generation-time failure: every `assert!` / `panic!` / `.unwrap()` on a
malformed token stream aborts the whole pass with no output (spec taxonomy:
`UnexpectedToken`). -/
inductive Err where
  | UnexpectedToken

/-- The `TokenTree::Ident` filter applied by `for_each_ident_in_group`. -/
def isIdentTok : Tok → Bool
  | .ident _ => true
  | _ => false

/-- `enum_len`: `for_each_ident_in_group` visits exactly the `Ident`
children of the next token, which must be a group (`match_or_panic!`);
the closure increments a counter once per identifier.  `none` models the
panic when the next token is missing or not a group. -/
def enum_len : List Tok → Option Nat
  | .group ts :: _ => some ((ts.filter isIdentTok).length)
  | _ => none

/-- `enum_ident`: scan the stream for the `enum` keyword and return the
following identifier (the enum's name) together with the remaining stream;
`none` models the `panic!()` when no `enum` keyword appears and the
`match_or_panic!` when the token after it is not an identifier. -/
def enum_ident : List Tok → Option (String × List Tok)
  | [] => none
  | .ident s :: rest =>
      if s = "enum" then
        match rest with
        | .ident n :: r => some (n, r)
        | _ => none
      else enum_ident rest
  | _ :: rest => enum_ident rest

/-- `enum_size` (the `EnumSize` derive): the emitted `SIZE` constant is
`enum_len` of the group following the enum name. -/
def enum_size (ts : List Tok) : Option (String × Nat) :=
  (enum_ident ts).bind fun p => (enum_len p.2).map fun n => (p.1, n)

/-- Token rendering of a comma-separated identifier list (an enum body). -/
def render_vars : List String → List Tok
  | [] => []
  | [v] => [.ident v]
  | v :: rest => .ident v :: .punct ',' :: render_vars rest

theorem filter_render_vars (vs : List String) :
    (render_vars vs).filter isIdentTok = vs.map Tok.ident := by
  induction vs with
  | nil => rfl
  | cons v rest ih =>
      cases rest with
      | nil => rfl
      | cons w ws => simp [render_vars, List.filter, isIdentTok] at ih ⊢; exact ih

/-- C5: for an enum declaration with `N` distinct variant identifiers, the
generated `SIZE` constant equals `N` exactly. -/
theorem enum_size_eq_length (name : String) (vs : List String) (hn : vs.Nodup) :
    enum_size [.ident "enum", .ident name, .group (render_vars vs)] =
      some (name, vs.length) := by
  simp [enum_size, enum_ident, enum_len, filter_render_vars]

/-- C5 witness: a concrete three-variant enum declaration. -/
theorem enum_size_eq_length_witness :
    (["A", "B", "C"] : List String).Nodup ∧
      enum_size [.ident "enum", .ident "Foo", .group (render_vars ["A", "B", "C"])] =
        some ("Foo", 3) :=
  ⟨by decide, enum_size_eq_length "Foo" ["A", "B", "C"] (by decide)⟩

/-- Rust's `str::parse::<u16>()`: an optional leading `+`, then one or more
ASCII digits, with the accumulated value required to fit in 16 bits
(checked accumulation overflows exactly when the denoted value exceeds
`65535`).  `none` models the `Err` that the macros `.unwrap()` into an
abort. -/
def parse_u16 (s : String) : Option Nat :=
  let cs := match s.data with
    | '+' :: rest => rest
    | cs => cs
  if cs = [] then none
  else if cs.all Char.isDigit then
    let n := cs.foldl (fun acc c => acc * 10 + (c.toNat - 48)) 0
    if n ≤ 65535 then some n else none
  else none

/-- The body of the `str_array` loop: one string per position `i` in
`0..amount`, each the prefix followed by the decimal rendering of `i`. -/
def str_array_strings (amount : Nat) (pre : String) : List String :=
  (List.range amount).map fun i => pre ++ toString i

/-- `str_array`: destination identifier, comma, a size parsed as `u16`
(`.unwrap()` aborts on any other token text), then optionally a comma, a
prefix token and end of input.  Returns the destination name, the parsed
size and the prefix (empty when absent); `.error` models the panics. -/
def str_array (ts : List Tok) : Except Err (String × Nat × String) :=
  match ts with
  | t :: .punct ',' :: ta :: rest =>
      match parse_u16 (tokString ta) with
      | none => .error .UnexpectedToken
      | some amount =>
          match rest with
          | [] => .ok (tokString t, amount, "")
          | [.punct ',', p] => .ok (tokString t, amount, tokString p)
          | _ => .error .UnexpectedToken
  | _ => .error .UnexpectedToken

/-- `meshes_indexes`: destination identifier, comma, a size parsed as
`u16`, and nothing else; returns the name and size. -/
def meshes_indexes (ts : List Tok) : Except Err (String × Nat) :=
  match ts with
  | [t, .punct ',', ta] =>
      match parse_u16 (tokString ta) with
      | none => .error .UnexpectedToken
      | some size => .ok (tokString t, size)
  | _ => .error .UnexpectedToken

/-- C8: the array-of-strings generator, given a destination name, a size
`n` and an optional literal prefix `p`, produces exactly `n` strings where
position `i` holds `p ++ toString i`, with no gaps, and the empty prefix
when none is supplied. -/
theorem str_array_spec (name s : String) (n : Nat) (p : Tok)
    (hs : parse_u16 s = some n) :
    str_array [.ident name, .punct ',', .lit s] = .ok (name, n, "")
    ∧ str_array [.ident name, .punct ',', .lit s, .punct ',', p] =
        .ok (name, n, tokString p)
    ∧ (∀ pre : String, (str_array_strings n pre).length = n)
    ∧ (∀ (pre : String) (i : Nat), i < n →
        (str_array_strings n pre)[i]? = some (pre ++ toString i)) := by
  refine ⟨?_, ?_, ?_, ?_⟩
  · simp [str_array, tokString, hs]
  · simp [str_array, tokString, hs]
  · intro pre; simp [str_array_strings]
  · intro pre i hi
    simp [str_array_strings, List.getElem?_map, List.getElem?_range hi]

/-- C8 witness: `str_array(ARRAY, 4, i_)` yields `["i_0", "i_1", "i_2", "i_3"]`. -/
theorem str_array_spec_witness :
    parse_u16 "4" = some 4 ∧
      (str_array_strings 4 "i_")[2]? = some ("i_" ++ toString 2) :=
  ⟨by decide,
    (str_array_spec "ARRAY" "4" 4 (.ident "i_") (by decide)).2.2.2 "i_" 2 (by decide)⟩

/-- C10: the size argument of `str_array` and of `meshes_indexes` is parsed
as a 16-bit unsigned integer: any accepted size is at most `65535`; a size
token rejected by the `u16` parse aborts the whole generation of either
macro; and `65536`, although a decimal integer, is rejected while `65535`
is accepted — the spec's "unsigned size" carries this upper bound. -/
theorem size_parsed_as_u16 (name s : String) (hs : parse_u16 s = none) :
    (∀ t n, parse_u16 t = some n → n ≤ 65535)
    ∧ str_array [.ident name, .punct ',', .lit s] = .error .UnexpectedToken
    ∧ meshes_indexes [.ident name, .punct ',', .lit s] = .error .UnexpectedToken
    ∧ parse_u16 "65535" = some 65535
    ∧ parse_u16 "65536" = none
    ∧ parse_u16 "abc" = none := by
  refine ⟨?_, ?_, ?_, by decide, by decide, by decide⟩
  · intro t n h
    unfold parse_u16 at h
    dsimp only at h
    split at h
    · exact absurd h (by simp)
    · split at h
      · split at h
        · have := Option.some.inj h
          omega
        · exact absurd h (by simp)
      · exact absurd h (by simp)
  · simp [str_array, tokString, hs]
  · simp [meshes_indexes, tokString, hs]

/-- C10 witness: the non-numeral token `65536` aborts `str_array`. -/
theorem size_parsed_as_u16_witness :
    parse_u16 "65536" = none ∧
      str_array [.ident "ARRAY", .punct ',', .lit "65536"] = .error .UnexpectedToken :=
  ⟨by decide, (size_parsed_as_u16 "ARRAY" "65536" (by decide)).2.1⟩

/-- The integer match arms `i => Enum::Variant` that both `enum_from_usize`
and `enum_iter` emit, built with a counter starting at `i0` and incremented
once per identifier in declaration order. -/
def indexed_arms (i0 : Nat) : List String → List (Nat × String)
  | [] => []
  | v :: vs => (i0, v) :: indexed_arms (i0 + 1) vs

/-- Rust `match` semantics over the generated integer arms: the first arm
whose literal equals the scrutinee fires; the trailing `_` arm
(`unreachable!()` in `enum_from_usize`, `None` in the iterator) yields
`none`. -/
def run_match (arms : List (Nat × String)) (value : Nat) : Option String :=
  (arms.find? fun a => a.1 == value).map Prod.snd

theorem run_match_cons_ne (a : Nat × String) (arms : List (Nat × String))
    (value : Nat) (h : a.1 ≠ value) :
    run_match (a :: arms) value = run_match arms value := by
  have hb : (a.1 == value) = false := by simpa using h
  simp [run_match, List.find?_cons, hb]

theorem run_match_indexed_arms (vs : List String) (i0 k : Nat) :
    run_match (indexed_arms i0 vs) (i0 + k) = vs[k]? := by
  induction vs generalizing i0 k with
  | nil => simp [indexed_arms, run_match]
  | cons v vs ih =>
      cases k with
      | zero => simp [indexed_arms, run_match]
      | succ k =>
          show run_match ((i0, v) :: indexed_arms (i0 + 1) vs) (i0 + (k + 1)) =
            (v :: vs)[k + 1]?
          rw [run_match_cons_ne _ _ _ (by simp), List.getElem?_cons_succ,
            show i0 + (k + 1) = i0 + 1 + k from by omega]
          exact ih (i0 + 1) k

/-- C3: for an `N`-variant enum, the generated `From<usize>` conversion
maps every `i < N` to the `i`-th variant in declaration order (so
re-deriving the converted variant's declared index returns `i`), and for
`i ≥ N` the match falls through to the rejecting `_` arm (the
`OutOfRangeIndex` signal of the generated program's runtime). -/
theorem enum_from_usize_spec (vs : List String) (hn : vs.Nodup) :
    (∀ i, run_match (indexed_arms 0 vs) i = vs[i]?)
    ∧ (∀ i, (h : i < vs.length) →
        run_match (indexed_arms 0 vs) i = some vs[i] ∧ vs.indexOf vs[i] = i)
    ∧ (∀ i, vs.length ≤ i → run_match (indexed_arms 0 vs) i = none) := by
  have base : ∀ i, run_match (indexed_arms 0 vs) i = vs[i]? := fun i => by
    simpa using run_match_indexed_arms vs 0 i
  refine ⟨base, fun i h => ⟨?_, List.indexOf_getElem hn i h⟩, fun i h => ?_⟩
  · rw [base i, List.getElem?_eq_getElem h]
  · rw [base i, List.getElem?_eq_none h]

/-- C3 witness: a concrete three-variant conversion, in range and out of
range. -/
theorem enum_from_usize_spec_witness :
    (["A", "B", "C"] : List String).Nodup ∧
      run_match (indexed_arms 0 ["A", "B", "C"]) 1 = some "B" ∧
      run_match (indexed_arms 0 ["A", "B", "C"]) 3 = none :=
  ⟨by decide,
    by simpa using (enum_from_usize_spec ["A", "B", "C"] (by decide)).2.1 1 (by decide) |>.1,
    (enum_from_usize_spec ["A", "B", "C"] (by decide)).2.2 3 (by decide)⟩

/-- The `usize` width: the generated iterator stores its cursor and length
in `usize` fields. -/
def USIZE : Nat := 2 ^ 64

/-- The state of the generated `EnumIterator(usize, usize)`: field `0` is
the cursor, field `1` the variant count. -/
structure EnumIterator where
  cursor : Nat
  stop : Nat

/-- `EnumIterator(0, enum_len)`: the freshly constructed iterator. -/
def enum_iter_new (vs : List String) : EnumIterator :=
  ⟨0, vs.length⟩

/-- The generated `next`: run the indexed match on the cursor, then
increment the cursor unconditionally, and return the match's value. -/
def enum_iter_next (vs : List String) (it : EnumIterator) :
    Option String × EnumIterator :=
  (run_match (indexed_arms 0 vs) it.cursor, ⟨it.cursor + 1, it.stop⟩)

/-- The generated `len`: `self.1 - self.0` over `usize`, i.e. wrapping
subtraction (the model assumes `cursor ≤ USIZE`, which every theorem's
hypotheses guarantee). -/
def enum_iter_len (it : EnumIterator) : Nat :=
  (it.stop + USIZE - it.cursor) % USIZE

/-- Run `k` successive calls to `next`, collecting the produced values and
the final iterator state. -/
def run_iter (vs : List String) : Nat → EnumIterator → List (Option String) × EnumIterator
  | 0, it => ([], it)
  | k + 1, it =>
      let s := enum_iter_next vs it
      let r := run_iter vs k s.2
      (s.1 :: r.1, r.2)

theorem run_iter_state (vs : List String) (k : Nat) (it : EnumIterator) :
    (run_iter vs k it).2 = ⟨it.cursor + k, it.stop⟩ := by
  induction k generalizing it with
  | zero => simp [run_iter]
  | succ k ih =>
      simp only [run_iter, enum_iter_next, ih]
      congr 1
      omega

theorem run_iter_outputs (vs : List String) (k c : Nat) (stop : Nat) :
    (run_iter vs k ⟨c, stop⟩).1 = (List.range k).map fun j => vs[c + j]? := by
  induction k generalizing c with
  | zero => simp [run_iter]
  | succ k ih =>
      simp only [run_iter, enum_iter_next]
      rw [ih (c + 1), List.range_succ_eq_map, List.map_cons, List.map_map]
      congr 1
      · simpa using run_match_indexed_arms vs 0 c
      · refine List.map_congr_left fun j hj => ?_
        simp only [Function.comp_apply]
        congr 1
        omega

theorem map_getElem?_range (vs : List String) :
    ((List.range vs.length).map fun j => vs[0 + j]?) = vs.map some := by
  refine List.ext_getElem? fun i => ?_
  by_cases h : i < vs.length
  · simp [List.getElem?_range h, List.getElem?_eq_getElem h, Nat.zero_add]
  · have h' : vs.length ≤ i := by omega
    simp [List.getElem?_eq_none, h', List.getElem?_eq_none (by simpa using h')]

theorem run_iter_state_new (vs : List String) (k : Nat) :
    (run_iter vs k (enum_iter_new vs)).2 = ⟨k, vs.length⟩ := by
  simpa [enum_iter_new] using run_iter_state vs k (enum_iter_new vs)

theorem enum_iter_len_run (vs : List String) (hlt : vs.length < USIZE)
    (k : Nat) (hk : k ≤ vs.length) :
    enum_iter_len (run_iter vs k (enum_iter_new vs)).2 = vs.length - k := by
  rw [run_iter_state_new vs k]
  show (vs.length + USIZE - k) % USIZE = vs.length - k
  have h1 : vs.length + USIZE - k = vs.length - k + USIZE := by omega
  rw [h1, Nat.add_mod_right]
  exact Nat.mod_eq_of_lt (by omega)

/-- C4: the generated iterator yields exactly `N` values in declaration
order (the `N+1`-st call yields `none`); its reported `len` decreases by
exactly `1` per produced value, equals `N - k` after `k ≤ N` values, and
reaches `0` only after the `N`-th value; and construction is restartable:
the fresh state is always `(0, N)`, determined by the declaration alone. -/
theorem enum_iter_spec (vs : List String) (hlt : vs.length < USIZE) :
    (run_iter vs vs.length (enum_iter_new vs)).1 = vs.map some
    ∧ (enum_iter_next vs (run_iter vs vs.length (enum_iter_new vs)).2).1 = none
    ∧ (∀ k, k ≤ vs.length →
        enum_iter_len (run_iter vs k (enum_iter_new vs)).2 = vs.length - k)
    ∧ (∀ k, k < vs.length →
        enum_iter_len (run_iter vs (k + 1) (enum_iter_new vs)).2 + 1 =
          enum_iter_len (run_iter vs k (enum_iter_new vs)).2)
    ∧ (∀ k, k ≤ vs.length →
        (enum_iter_len (run_iter vs k (enum_iter_new vs)).2 = 0 ↔ k = vs.length))
    ∧ enum_iter_new vs = ⟨0, vs.length⟩ := by
  have hlen := enum_iter_len_run vs hlt
  refine ⟨?_, ?_, hlen, ?_, ?_, rfl⟩
  · rw [show enum_iter_new vs = ⟨0, vs.length⟩ from rfl, run_iter_outputs,
      map_getElem?_range]
  · rw [run_iter_state_new]
    simp only [enum_iter_next]
    rw [show vs.length = 0 + vs.length from by omega, run_match_indexed_arms]
    simp
  · intro k hk
    rw [hlen (k + 1) (by omega), hlen k (by omega)]
    omega
  · intro k hk
    rw [hlen k hk]
    omega

/-- C4 witness: a concrete two-variant iterator run. -/
theorem enum_iter_spec_witness :
    (["A", "B"] : List String).length < USIZE ∧
      (run_iter ["A", "B"] (["A", "B"] : List String).length
        (enum_iter_new ["A", "B"])).1 = [some "A", some "B"] := by
  have h : (["A", "B"] : List String).length < USIZE := by norm_num [USIZE]
  exact ⟨h, by simpa using (enum_iter_spec ["A", "B"] h).1⟩

/-- C9: the generated `next` increments its cursor unconditionally, even on
calls made after the sequence is exhausted; after the `N + 1`-st call the
cursor strictly exceeds the stored end, so the generated `len` —
`self.1 - self.0` over `usize` — performs an underflowing unsigned
subtraction (wrapping to `USIZE - 1`, in particular not `0`), while it is
well-defined (`N - k`) only as long as at most `N` calls have been made. -/
theorem enum_iter_len_underflow (vs : List String) (h : vs.length + 1 < USIZE) :
    (∀ it : EnumIterator, (enum_iter_next vs it).2.cursor = it.cursor + 1)
    ∧ (run_iter vs (vs.length + 1) (enum_iter_new vs)).2.cursor =
        (run_iter vs (vs.length + 1) (enum_iter_new vs)).2.stop + 1
    ∧ (∀ k, k ≤ vs.length →
        enum_iter_len (run_iter vs k (enum_iter_new vs)).2 = vs.length - k)
    ∧ enum_iter_len (run_iter vs (vs.length + 1) (enum_iter_new vs)).2 = USIZE - 1
    ∧ enum_iter_len (run_iter vs (vs.length + 1) (enum_iter_new vs)).2 ≠ 0 := by
  have hlen := enum_iter_len_run vs (by omega)
  have hub : enum_iter_len (run_iter vs (vs.length + 1) (enum_iter_new vs)).2 =
      USIZE - 1 := by
    rw [run_iter_state_new]
    show (vs.length + USIZE - (vs.length + 1)) % USIZE = USIZE - 1
    rw [show vs.length + USIZE - (vs.length + 1) = USIZE - 1 from by omega]
    exact Nat.mod_eq_of_lt (by omega)
  refine ⟨fun it => rfl, ?_, hlen, hub, ?_⟩
  · rw [run_iter_state_new]
  · rw [hub]
    have : 4 ≤ USIZE := by norm_num [USIZE]
    omega

/-- C9 witness: a two-variant iterator, three calls to `next`. -/
theorem enum_iter_len_underflow_witness :
    (["A", "B"] : List String).length + 1 < USIZE ∧
      enum_iter_len (run_iter ["A", "B"] ((["A", "B"] : List String).length + 1)
        (enum_iter_new ["A", "B"])).2 = USIZE - 1 := by
  have h : (["A", "B"] : List String).length + 1 < USIZE := by norm_num [USIZE]
  exact ⟨h, (enum_iter_len_underflow ["A", "B"] h).2.2.2.1⟩

/-- Rust's `char::is_ascii_uppercase` (`'A'..='Z'`).  `push_key_and_label`
calls the Unicode `char::is_uppercase`, which agrees with this on the
ASCII-letter identifiers every theorem below quantifies over; `bind_enum`
and `tools_common` call `is_ascii_uppercase` itself. -/
def is_ascii_uppercase (c : Char) : Bool :=
  65 ≤ c.toNat && c.toNat ≤ 90

/-- Rust's `char::to_ascii_lowercase`: add 32 to an ASCII uppercase letter,
leave every other character unchanged. -/
def to_ascii_lowercase (c : Char) : Char :=
  if is_ascii_uppercase c then Char.ofNat (c.toNat + 32) else c

/-- An ASCII letter: the spec's canonical identifiers are composed of
letters only. -/
def is_ascii_letter (c : Char) : Bool :=
  (65 ≤ c.toNat && c.toNat ≤ 90) || (97 ≤ c.toNat && c.toNat ≤ 122)

/-- The label loop of `push_key_and_label` (and of `bind_enum` /
`tools_common`) after the first character: a separating space before every
uppercase character, every character kept with its original case. -/
def label_tail : List Char → List Char
  | [] => []
  | c :: cs =>
      if is_ascii_uppercase c then ' ' :: c :: label_tail cs
      else c :: label_tail cs

/-- The label built by `push_key_and_label`: first character unchanged,
then `label_tail` (the empty case is unreachable: a `proc_macro`
identifier is never empty). -/
def label_chars : List Char → List Char
  | [] => []
  | c :: cs => c :: label_tail cs

/-- The key loop of `push_key_and_label` after the first character: an
underscore plus the lowercased character for every uppercase character,
every other character unchanged. -/
def key_tail : List Char → List Char
  | [] => []
  | c :: cs =>
      if is_ascii_uppercase c then '_' :: to_ascii_lowercase c :: key_tail cs
      else c :: key_tail cs

/-- The key built by `push_key_and_label`: first character lowercased, then
`key_tail`. -/
def key_chars : List Char → List Char
  | [] => []
  | c :: cs => to_ascii_lowercase c :: key_tail cs

/-- The derivation `bind_enum` (and `tools_common`) applies to a label to
obtain the key: `.to_ascii_lowercase().replace(' ', "_")`. -/
def key_from_label (l : List Char) : List Char :=
  (l.map to_ascii_lowercase).map fun c => if c = ' ' then '_' else c

/-- `bind_enum` computes its key directly from its label. -/
def bind_key (id : List Char) : List Char :=
  key_from_label (label_chars id)

theorem char_toNat_ofNat {n : Nat} (h : n < 55296) : (Char.ofNat n).toNat = n := by
  rw [Char.ofNat, dif_pos (Or.inl h)]
  rfl

theorem to_ascii_lowercase_toNat_of_upper (c : Char)
    (h : is_ascii_uppercase c = true) :
    (to_ascii_lowercase c).toNat = c.toNat + 32 := by
  have hlt : c.toNat + 32 < 55296 := by
    simp [is_ascii_uppercase] at h
    omega
  simp [to_ascii_lowercase, h, char_toNat_ofNat hlt]

theorem to_ascii_lowercase_of_not_upper (c : Char)
    (h : is_ascii_uppercase c = false) : to_ascii_lowercase c = c := by
  simp [to_ascii_lowercase, h]

theorem to_ascii_lowercase_ne_space_of_letter (c : Char)
    (h : is_ascii_letter c = true) : to_ascii_lowercase c ≠ ' ' := by
  intro heq
  have h32 : (to_ascii_lowercase c).toNat = 32 := by rw [heq]; rfl
  by_cases hu : is_ascii_uppercase c = true
  · rw [to_ascii_lowercase_toNat_of_upper c hu] at h32
    simp [is_ascii_uppercase] at hu
    omega
  · rw [to_ascii_lowercase_of_not_upper c (by simpa using hu)] at h32
    simp [is_ascii_letter] at h
    omega

theorem key_from_label_tail (cs : List Char)
    (h : ∀ c ∈ cs, is_ascii_letter c = true) :
    key_from_label (label_tail cs) = key_tail cs := by
  induction cs with
  | nil => rfl
  | cons c cs ih =>
      have hc : is_ascii_letter c = true := h c (by simp)
      have hrest := ih fun x hx => h x (List.mem_cons_of_mem c hx)
      have hne := to_ascii_lowercase_ne_space_of_letter c hc
      by_cases hu : is_ascii_uppercase c = true
      · simp only [label_tail, hu, if_true, key_tail, key_from_label,
          List.map_cons] at hrest ⊢
        rw [show to_ascii_lowercase ' ' = ' ' from rfl]
        simp only [if_pos rfl, if_neg hne]
        exact congrArg _ (congrArg _ hrest)
      · have hu' : is_ascii_uppercase c = false := by simpa using hu
        have hcc := to_ascii_lowercase_of_not_upper c hu'
        have hcs : c ≠ ' ' := by rw [← hcc]; exact hne
        simp only [label_tail, hu', if_false, key_tail, key_from_label,
          List.map_cons, Bool.false_eq_true] at hrest ⊢
        rw [hcc]
        simp only [if_neg hcs]
        exact congrArg _ hrest

/-- C2: for every nonempty identifier composed of (ASCII) letters, the
label emitted by `push_key_and_label` keeps the first character and
inserts a single space before each later uppercase character preserving
case, the key uses the same boundaries with underscores and lowercases
everything — `label("MoveThing") = "Move Thing"`,
`key("MoveThing") = "move_thing"` — and lowercasing the label and turning
its spaces into underscores reproduces the key exactly; `bind_enum`'s key
(defined as exactly that derivation from its label) therefore also equals
`key`. -/
theorem case_transform_consistency (id : List Char) (hne : id ≠ [])
    (h : ∀ c ∈ id, is_ascii_letter c = true) :
    key_from_label (label_chars id) = key_chars id
    ∧ bind_key id = key_chars id
    ∧ label_chars "MoveThing".data = "Move Thing".data
    ∧ key_chars "MoveThing".data = "move_thing".data := by
  have main : key_from_label (label_chars id) = key_chars id := by
    cases id with
    | nil => rfl
    | cons c cs =>
        have hc : is_ascii_letter c = true := h c (by simp)
        have hne' := to_ascii_lowercase_ne_space_of_letter c hc
        simp only [label_chars, key_chars, key_from_label, List.map_cons,
          if_neg hne']
        exact congrArg _ (key_from_label_tail cs fun x hx =>
          h x (List.mem_cons_of_mem c hx))
  exact ⟨main, main, by decide, by decide⟩

/-- C2 witness: the identifier `MoveThing`. -/
theorem case_transform_consistency_witness :
    ("MoveThing".data ≠ [] ∧ ∀ c ∈ "MoveThing".data, is_ascii_letter c = true)
    ∧ key_from_label (label_chars "MoveThing".data) = key_chars "MoveThing".data :=
  ⟨⟨by decide, by decide⟩,
    (case_transform_consistency "MoveThing".data (by decide) (by decide)).1⟩

/-- Round-half-to-even on rationals: the integer nearest `x`, ties going
to the even integer (the IEEE-754 default rounding of a scaled
significand). -/
def rnd_half_even (x : ℚ) : ℤ :=
  if x - ⌊x⌋ < 1 / 2 then ⌊x⌋
  else if 1 / 2 < x - ⌊x⌋ then ⌊x⌋ + 1
  else if ⌊x⌋ % 2 = 0 then ⌊x⌋ else ⌊x⌋ + 1

/-- Round a rational to the nearest IEEE-754 binary32 value (round to
nearest, ties to even), as the exact rational that value denotes: the
input is scaled into the 24-bit significand window `[2^23, 2^24)` and
rounded half-to-even.  This models Rust `f32` arithmetic over the normal
range, which contains every value any theorem below uses; subnormal
granularity and overflow to infinity lie outside it and are not
modelled. -/
def f32_round (q : ℚ) : ℚ :=
  if q > 0 then
    (rnd_half_even (q / 2 ^ (Int.log 2 q - 23)) : ℚ) * 2 ^ (Int.log 2 q - 23)
  else if q < 0 then
    -((rnd_half_even (-q / 2 ^ (Int.log 2 (-q) - 23)) : ℚ) * 2 ^ (Int.log 2 (-q) - 23))
  else 0

/-- Rust `f32` addition: the exact sum, rounded to the nearest
representable value. -/
def f32_add (x y : ℚ) : ℚ :=
  f32_round (x + y)

theorem rnd_half_even_intCast (m : ℤ) : rnd_half_even (m : ℚ) = m := by
  simp [rnd_half_even]

/-- Every integer up to `2 ^ 24` is exactly representable in binary32:
rounding returns it unchanged. -/
theorem f32_round_nat (n : ℕ) (h1 : 1 ≤ n) (h2 : n ≤ 2 ^ 24) :
    f32_round (n : ℚ) = n := by
  have hpos : (0 : ℚ) < n := by exact_mod_cast h1
  rw [f32_round, if_pos hpos, Int.log_natCast]
  by_cases hcap : n = 2 ^ 24
  · subst hcap
    rw [Nat.log_pow (by norm_num)]
    norm_num
    rw [show (8388608 : ℚ) = ((8388608 : ℤ) : ℚ) from by norm_num, rnd_half_even_intCast]
    norm_num
  · have hlt : n < 2 ^ 24 := lt_of_le_of_ne h2 hcap
    set k := Nat.log 2 n with hkdef
    have hk23 : k ≤ 23 := by
      have hp : 2 ^ k ≤ n := Nat.pow_log_le_self 2 (by omega)
      have hpp : (2 : ℕ) ^ k < 2 ^ 24 := lt_of_le_of_lt hp hlt
      have := (Nat.pow_lt_pow_iff_right (by norm_num : (1 : ℕ) < 2)).mp hpp
      omega
    have hje : (k : ℤ) - 23 = -((23 - k : ℕ) : ℤ) := by omega
    rw [hje]
    have h2j : ((2 : ℚ) ^ (-(((23 - k : ℕ) : ℤ)))) = ((2 : ℚ) ^ (23 - k : ℕ))⁻¹ := by
      rw [zpow_neg, zpow_natCast]
    rw [h2j]
    have hs : (n : ℚ) / ((2 : ℚ) ^ (23 - k : ℕ))⁻¹ = (((n * 2 ^ (23 - k) : ℕ) : ℤ) : ℚ) := by
      push_cast
      field_simp
    rw [hs, rnd_half_even_intCast]
    push_cast
    field_simp

/-- At `2 ^ 24` the binary32 spacing becomes `2`: adding `1` is absorbed
(the tie rounds back to the even significand). -/
theorem f32_round_cap_succ : f32_round ((2 ^ 24 : ℚ) + 1) = 2 ^ 24 := by
  have hq : ((2 ^ 24 : ℚ) + 1) = ((16777217 : ℕ) : ℚ) := by norm_num
  rw [hq, f32_round, if_pos (by norm_num), Int.log_natCast]
  have hk : Nat.log 2 16777217 = 24 :=
    Nat.log_eq_of_pow_le_of_lt_pow (by norm_num) (by norm_num)
  rw [hk]
  norm_num
  have hf : (⌊(16777217 : ℚ) / 2⌋ : ℤ) = 8388608 := by
    rw [Int.floor_eq_iff]
    norm_num
  rw [rnd_half_even, hf]
  norm_num

theorem f32_add_nat (a b : ℕ) (h1 : 1 ≤ a + b) (h2 : a + b ≤ 2 ^ 24) :
    f32_add (a : ℚ) (b : ℚ) = ((a + b : ℕ) : ℚ) := by
  rw [f32_add, ← Nat.cast_add]
  exact f32_round_nat (a + b) h1 h2

theorem f32_add_cap_one : f32_add ((2 ^ 24 : ℕ) : ℚ) 1 = ((2 ^ 24 : ℕ) : ℚ) := by
  rw [f32_add]
  rw [show ((2 ^ 24 : ℕ) : ℚ) + 1 = (2 ^ 24 : ℚ) + 1 from by push_cast; ring]
  rw [f32_round_cap_succ]
  push_cast
  ring

/-- Reference (spec-side) exact-arithmetic counterpart of
`generate_height_func`: the same recursion with exact rational addition.
`generate_height_func` agrees with it as long as every accumulated value
stays in the range where `f32` addition is exact (`f32_ghf_eq_exact`). -/
def exact_height_func (start interval : ℚ) :
    List String → List (String × ℚ) × ℚ
  | [] => ([], start)
  | item :: rest =>
      let r := exact_height_func (start + interval) interval rest
      ((item, start) :: r.1, r.2)

/-- `generate_height_func`: one `item => height` arm per item in order,
the height advancing by `start_height += interval` per item — an `f32`
accumulation, modelled by `f32_add` on the exact rationals the `f32`
values denote; returns the arms together with the final `start_height`
(the next available start).  The trailing `_ => panic!` arm carries no
height. -/
def generate_height_func (start interval : ℚ) :
    List String → List (String × ℚ) × ℚ
  | [] => ([], start)
  | item :: rest =>
      let r := generate_height_func (f32_add start interval) interval rest
      ((item, start) :: r.1, r.2)

/-- While the accumulated integer heights stay at most `2 ^ 24`, the `f32`
accumulation is exact. -/
theorem f32_ghf_eq_exact (d : ℕ) (items : List String) :
    ∀ s : ℕ, 1 ≤ s → s + items.length * d ≤ 2 ^ 24 →
      generate_height_func (s : ℚ) (d : ℚ) items
        = exact_height_func (s : ℚ) (d : ℚ) items := by
  induction items with
  | nil => intro s h1 h2; rfl
  | cons it rest ih =>
      intro s h1 h2
      rw [List.length_cons, Nat.succ_mul] at h2
      have hadd : f32_add (s : ℚ) (d : ℚ) = ((s + d : ℕ) : ℚ) :=
        f32_add_nat s d (by omega) (by omega)
      simp only [generate_height_func, exact_height_func]
      rw [hadd, ih (s + d) (by omega) (by omega), Nat.cast_add]

/-- With interval `1` and an integer start, the `f32`-accumulated heights
climb by `1` until they reach `2 ^ 24` and are absorbed there: every
height is `min (s + i) (2 ^ 24)`. -/
theorem f32_ghf_capped (items : List String) :
    ∀ s : ℕ, 1 ≤ s → s ≤ 2 ^ 24 →
      (generate_height_func (s : ℚ) 1 items).1.map Prod.snd
        = (List.range items.length).map fun i : ℕ => ((min (s + i) (2 ^ 24) : ℕ) : ℚ) := by
  induction items with
  | nil => intro s h1 h2; simp [generate_height_func]
  | cons it rest ih =>
      intro s h1 h2
      simp only [generate_height_func, List.map_cons, List.length_cons,
        List.range_succ_eq_map, List.map_map]
      by_cases hcap : s = 2 ^ 24
      · subst hcap
        rw [f32_add_cap_one, ih (2 ^ 24) (by norm_num) (le_refl _)]
        refine congrArg₂ _ (by rw [Nat.min_eq_right (Nat.le_add_right _ _)]) ?_
        refine List.map_congr_left fun i hi => ?_
        simp only [Function.comp_apply]
        rw [Nat.min_eq_right (Nat.le_add_right _ _), Nat.min_eq_right (Nat.le_add_right _ _)]
      · have hs : s < 2 ^ 24 := lt_of_le_of_ne h2 hcap
        have hadd : f32_add (s : ℚ) 1 = ((s + 1 : ℕ) : ℚ) := by
          have := f32_add_nat s 1 (by omega) (by omega)
          simpa using this
        rw [hadd, ih (s + 1) (by omega) (by omega)]
        refine congrArg₂ _ (by rw [Nat.min_eq_left (by omega)]; norm_num) ?_
        refine List.map_congr_left fun i hi => ?_
        simp only [Function.comp_apply]
        congr 2
        omega

theorem exact_height_func_next (d : ℚ) (items : List String) :
    ∀ s : ℚ, (exact_height_func s d items).2 = s + items.length * d := by
  induction items with
  | nil => intro s; simp [exact_height_func]
  | cons item rest ih =>
      intro s
      simp only [exact_height_func, ih (s + d), List.length_cons]
      push_cast
      ring

theorem exact_height_func_heights (d : ℚ) (items : List String) :
    ∀ s : ℚ, (exact_height_func s d items).1.map Prod.snd =
      (List.range items.length).map fun i : ℕ => s + (i : ℚ) * d := by
  induction items with
  | nil => intro s; simp [exact_height_func]
  | cons item rest ih =>
      intro s
      simp only [exact_height_func, List.map_cons, List.length_cons,
        List.range_succ_eq_map, List.map_map, ih (s + d)]
      refine congrArg₂ _ (by push_cast; ring) ?_
      refine List.map_congr_left fun i hi => ?_
      simp only [Function.comp_apply]
      push_cast
      ring

theorem exact_height_func_mem_lb (d : ℚ) (hd : 0 ≤ d) (items : List String) :
    ∀ s : ℚ, ∀ y ∈ (exact_height_func s d items).1.map Prod.snd, s ≤ y := by
  induction items with
  | nil => intro s y hy; simp [exact_height_func] at hy
  | cons item rest ih =>
      intro s y hy
      simp only [exact_height_func, List.map_cons, List.mem_cons] at hy
      rcases hy with rfl | hy
      · exact le_refl y
      · have := ih (s + d) y hy
        linarith

theorem exact_height_func_mem_ub (d : ℚ) (hd : 0 < d) (items : List String) :
    ∀ s : ℚ, ∀ y ∈ (exact_height_func s d items).1.map Prod.snd,
      y < (exact_height_func s d items).2 := by
  induction items with
  | nil => intro s y hy; simp [exact_height_func] at hy
  | cons item rest ih =>
      intro s y hy
      simp only [exact_height_func, List.map_cons, List.mem_cons] at hy
      show y < (exact_height_func (s + d) d rest).2
      rcases hy with rfl | hy
      · rw [exact_height_func_next]
        have : (0 : ℚ) ≤ (rest.length : ℚ) * d :=
          mul_nonneg (Nat.cast_nonneg _) hd.le
        linarith
      · exact ih (s + d) y hy

theorem exact_height_func_pairwise (d : ℚ) (hd : 0 < d) (items : List String) :
    ∀ s : ℚ, ((exact_height_func s d items).1.map Prod.snd).Pairwise (· < ·) := by
  induction items with
  | nil => intro s; simp [exact_height_func]
  | cons item rest ih =>
      intro s
      simp only [exact_height_func, List.map_cons]
      refine List.Pairwise.cons (fun y hy => ?_) (ih (s + d))
      have := exact_height_func_mem_lb d hd.le rest (s + d) y hy
      linarith

/-- Pass 1 of `color_enum`: `entity_height`, start `1f32`, interval
`textures_interval + 1f32` (an `f32` addition) where `textures_interval`
is `f32::from(*TEXTURE_HEIGHT_RANGE.end())` — a constant of the external
`hill_vacuum_shared` crate, kept here as a parameter `ti`. -/
def entity_pass (ti : ℚ) (entities : List String) : List (String × ℚ) × ℚ :=
  generate_height_func 1 (f32_add ti 1) entities

/-- `clip_height`: the next available start returned by the entity pass. -/
def clip_height (ti : ℚ) (entities : List String) : ℚ :=
  (entity_pass ti entities).2

/-- The arm order of the line pass:
`grid.iter().chain(Some(&extensions)).chain(&entities).chain(&ui)`. -/
def line_items (grid : List String) (extensions : String)
    (entities ui : List String) : List String :=
  grid ++ [extensions] ++ entities ++ ui

/-- Pass 2 of `color_enum`: `line_height`, start `clip_height + 1f32` (an
`f32` addition), interval `1f32`. -/
def line_pass (ti : ℚ) (grid : List String) (extensions : String)
    (entities ui : List String) : List (String × ℚ) × ℚ :=
  generate_height_func (f32_add (clip_height ti entities) 1) 1
    (line_items grid extensions entities ui)

/-- `thing_angle_height`: the next available start returned by the line
pass. -/
def thing_angle_height (ti : ℚ) (grid : List String) (extensions : String)
    (entities ui : List String) : ℚ :=
  (line_pass ti grid extensions entities ui).2

/-- The reserved gap: `thing_angle_indicator_height()` returns the pair
`[thing_angle_height, thing_angle_height + 1f32]`. -/
def thing_angle_band (ti : ℚ) (grid : List String) (extensions : String)
    (entities ui : List String) : List ℚ :=
  [thing_angle_height ti grid extensions entities ui,
    f32_add (thing_angle_height ti grid extensions entities ui) 1]

/-- Pass 3 of `color_enum`: `square_hgl_height`, start
`thing_angle_height + 2f32` (an `f32` addition), interval `1f32`, over the
`ui` slots. -/
def square_hgl_pass (ti : ℚ) (grid : List String) (extensions : String)
    (entities ui : List String) : List (String × ℚ) × ℚ :=
  generate_height_func
    (f32_add (thing_angle_height ti grid extensions entities ui) 2) 1 ui

/-- Every height value the pipeline assigns, in emission order: entity
pass, line pass, the reserved thing-angle band, square-highlight pass. -/
def all_heights (ti : ℚ) (grid : List String) (extensions : String)
    (entities ui : List String) : List ℚ :=
  (entity_pass ti entities).1.map Prod.snd
    ++ (line_pass ti grid extensions entities ui).1.map Prod.snd
    ++ thing_angle_band ti grid extensions entities ui
    ++ (square_hgl_pass ti grid extensions entities ui).1.map Prod.snd

/-- C1 counterexample: an entity section of `2 ^ 24 + 1` variants drives
the accumulated `f32` height up to `2 ^ 24`, where adding the interval is
absorbed (`f32_add_cap_one`): two distinct variants receive equal heights,
so the pipeline heights are not pairwise distinct — the claim universal
strict-increase and distinctness invariants fail on the `f32` arithmetic
the source actually performs. -/
theorem color_enum_height_absorption :
    ¬ (all_heights 0 ["G"] "X" (List.replicate (2 ^ 24 + 1) "E") ["U"]).Nodup := by
  intro h
  unfold all_heights at h
  have hE : ((entity_pass 0 (List.replicate (2 ^ 24 + 1) "E")).1.map Prod.snd).Nodup :=
    ((h.of_append_left).of_append_left).of_append_left
  have hadd01 : f32_add (0 : ℚ) 1 = 1 := by
    have := f32_add_nat 0 1 (by norm_num) (by norm_num)
    simpa using this
  have hcapped := f32_ghf_capped (List.replicate (2 ^ 24 + 1) "E") 1 (by norm_num) (by norm_num)
  rw [show entity_pass 0 (List.replicate (2 ^ 24 + 1) "E")
      = generate_height_func ((1 : ℕ) : ℚ) 1 (List.replicate (2 ^ 24 + 1) "E") from by
        unfold entity_pass
        rw [hadd01]
        norm_num] at hE
  rw [hcapped, List.length_replicate] at hE
  have hinj := List.inj_on_of_nodup_map hE
  have hx : (2 ^ 24 - 1 : ℕ) ∈ List.range (2 ^ 24 + 1) := by
    rw [List.mem_range]
    norm_num
  have hy : (2 ^ 24 : ℕ) ∈ List.range (2 ^ 24 + 1) := by
    rw [List.mem_range]
    norm_num
  have hxy : (2 ^ 24 - 1 : ℕ) = 2 ^ 24 := hinj hx hy (by norm_num)
  norm_num at hxy

/-- C1 (amended): provided the pipeline parameters are nonnegative
integers (as the source constants are) and every accumulated height stays
at most `2 ^ 24` — the range in which `f32` integer arithmetic is exact —
each pass assigns heights increasing by exactly its interval per variant
in declaration order, each returned next-available start is at most the
start fed to the following pass, no two slots anywhere in the pipeline
receive equal heights, and the spec example (sizes `[2, 3]`, interval `1`,
start `1`, gap `1`) allocates `{1, 2}` and `{4, 5, 6}`.  Beyond that bound
absorption violates distinctness (`color_enum_height_absorption`). -/
theorem color_enum_height_allocation (tn : ℕ)
    (grid : List String) (extensions : String) (entities ui : List String)
    (hbound : 4 + tn + entities.length * (tn + 1)
        + (grid.length + 1 + entities.length + ui.length) + ui.length ≤ 2 ^ 24) :
    ((entity_pass (tn : ℚ) entities).1.map Prod.snd
        = (List.range entities.length).map fun i : ℕ => 1 + (i : ℚ) * ((tn : ℚ) + 1))
    ∧ ((line_pass (tn : ℚ) grid extensions entities ui).1.map Prod.snd
        = (List.range (line_items grid extensions entities ui).length).map
            fun i : ℕ => clip_height (tn : ℚ) entities + 1 + (i : ℚ) * 1)
    ∧ ((square_hgl_pass (tn : ℚ) grid extensions entities ui).1.map Prod.snd
        = (List.range ui.length).map
            fun i : ℕ =>
              thing_angle_height (tn : ℚ) grid extensions entities ui + 2 + (i : ℚ) * 1)
    ∧ (entity_pass (tn : ℚ) entities).2 ≤ clip_height (tn : ℚ) entities + 1
    ∧ (line_pass (tn : ℚ) grid extensions entities ui).2
        ≤ thing_angle_height (tn : ℚ) grid extensions entities ui + 2
    ∧ (all_heights (tn : ℚ) grid extensions entities ui).Nodup
    ∧ ((generate_height_func 1 1 ["A", "B"]).1.map Prod.snd = [1, 2]
        ∧ (generate_height_func (f32_add (generate_height_func 1 1 ["A", "B"]).2 1) 1
            ["C", "D", "E"]).1.map Prod.snd = [4, 5, 6]
        ∧ (((generate_height_func 1 1 ["A", "B"]).1
            ++ (generate_height_func (f32_add (generate_height_func 1 1 ["A", "B"]).2 1) 1
                ["C", "D", "E"]).1).map Prod.snd).Nodup) := by
  have hLlen : (line_items grid extensions entities ui).length
      = grid.length + 1 + entities.length + ui.length := by
    simp [line_items]
    omega
  -- the f32 additions along the pipeline are exact under `hbound`
  have hd : f32_add (tn : ℚ) 1 = ((tn + 1 : ℕ) : ℚ) := by
    have h := f32_add_nat tn 1 (by omega) (by omega)
    rw [Nat.cast_one] at h
    exact h
  have hE : entity_pass (tn : ℚ) entities
      = exact_height_func 1 ((tn : ℚ) + 1) entities := by
    unfold entity_pass
    rw [hd, Nat.cast_add, Nat.cast_one]
    have h := f32_ghf_eq_exact (tn + 1) entities 1 (le_refl 1) (by omega)
    rw [Nat.cast_one, Nat.cast_add, Nat.cast_one] at h
    exact h
  have hclip : clip_height (tn : ℚ) entities
      = ((1 + entities.length * (tn + 1) : ℕ) : ℚ) := by
    unfold clip_height
    rw [hE, exact_height_func_next]
    push_cast
    ring
  have hls : f32_add (clip_height (tn : ℚ) entities) 1
      = ((1 + entities.length * (tn + 1) + 1 : ℕ) : ℚ) := by
    rw [hclip]
    have h := f32_add_nat (1 + entities.length * (tn + 1)) 1 (by omega) (by omega)
    rw [Nat.cast_one] at h
    exact h
  have hLpass : line_pass (tn : ℚ) grid extensions entities ui
      = exact_height_func ((1 + entities.length * (tn + 1) + 1 : ℕ) : ℚ) 1
          (line_items grid extensions entities ui) := by
    unfold line_pass
    rw [hls]
    have h := f32_ghf_eq_exact 1 (line_items grid extensions entities ui)
      (1 + entities.length * (tn + 1) + 1) (by omega) (by rw [hLlen]; omega)
    rw [Nat.cast_one] at h
    exact h
  have htah : thing_angle_height (tn : ℚ) grid extensions entities ui
      = ((1 + entities.length * (tn + 1) + 1
          + (line_items grid extensions entities ui).length : ℕ) : ℚ) := by
    unfold thing_angle_height
    rw [hLpass, exact_height_func_next]
    push_cast
    ring
  have hband : f32_add (thing_angle_height (tn : ℚ) grid extensions entities ui) 1
      = ((1 + entities.length * (tn + 1) + 1
          + (line_items grid extensions entities ui).length + 1 : ℕ) : ℚ) := by
    rw [htah]
    have h := f32_add_nat (1 + entities.length * (tn + 1) + 1
      + (line_items grid extensions entities ui).length) 1 (by omega) (by rw [hLlen]; omega)
    rw [Nat.cast_one] at h
    exact h
  have hsq : f32_add (thing_angle_height (tn : ℚ) grid extensions entities ui) 2
      = ((1 + entities.length * (tn + 1) + 1
          + (line_items grid extensions entities ui).length + 2 : ℕ) : ℚ) := by
    rw [htah]
    have h := f32_add_nat (1 + entities.length * (tn + 1) + 1
      + (line_items grid extensions entities ui).length) 2 (by omega) (by rw [hLlen]; omega)
    rw [show ((2 : ℕ) : ℚ) = 2 from by norm_num] at h
    exact h
  have hSpass : square_hgl_pass (tn : ℚ) grid extensions entities ui
      = exact_height_func ((1 + entities.length * (tn + 1) + 1
          + (line_items grid extensions entities ui).length + 2 : ℕ) : ℚ) 1 ui := by
    unfold square_hgl_pass
    rw [hsq]
    have h := f32_ghf_eq_exact 1 ui
      (1 + entities.length * (tn + 1) + 1
        + (line_items grid extensions entities ui).length + 2) (by omega)
      (by rw [hLlen]; omega)
    rw [Nat.cast_one] at h
    exact h
  -- example (sizes [2, 3], interval 1, start 1, gap 1)
  have hex1 : generate_height_func 1 1 ["A", "B"] = exact_height_func 1 1 ["A", "B"] := by
    have h := f32_ghf_eq_exact 1 ["A", "B"] 1 (le_refl 1) (by norm_num)
    rw [Nat.cast_one] at h
    exact h
  have hnext3 : (generate_height_func 1 1 ["A", "B"]).2 = ((3 : ℕ) : ℚ) := by
    rw [hex1]
    rw [exact_height_func_next]
    norm_num
  have hgap : f32_add ((3 : ℕ) : ℚ) 1 = ((4 : ℕ) : ℚ) := by
    have h := f32_add_nat 3 1 (by norm_num) (by norm_num)
    rw [Nat.cast_one] at h
    rw [show ((3 + 1 : ℕ) : ℚ) = ((4 : ℕ) : ℚ) from by norm_num] at h
    exact h
  have hex2 : generate_height_func ((4 : ℕ) : ℚ) 1 ["C", "D", "E"]
      = exact_height_func ((4 : ℕ) : ℚ) 1 ["C", "D", "E"] := by
    have h := f32_ghf_eq_exact 1 ["C", "D", "E"] 4 (by norm_num) (by norm_num)
    rw [Nat.cast_one] at h
    exact h
  refine ⟨?_, ?_, ?_, ?_, ?_, ?_, ?_, ?_, ?_⟩
  · rw [hE]
    exact exact_height_func_heights ((tn : ℚ) + 1) entities 1
  · rw [hLpass, exact_height_func_heights, hclip]
    refine List.map_congr_left fun i hi => ?_
    push_cast
    ring
  · rw [hSpass, exact_height_func_heights, htah]
    refine List.map_congr_left fun i hi => ?_
    push_cast
    ring
  · have h : (entity_pass (tn : ℚ) entities).2 = clip_height (tn : ℚ) entities := rfl
    rw [h]
    linarith
  · have h : (line_pass (tn : ℚ) grid extensions entities ui).2
        = thing_angle_height (tn : ℚ) grid extensions entities ui := rfl
    rw [h]
    linarith
  · -- global distinctness
    have hall : all_heights (tn : ℚ) grid extensions entities ui
        = (exact_height_func 1 ((tn : ℚ) + 1) entities).1.map Prod.snd
          ++ (exact_height_func ((1 + entities.length * (tn + 1) + 1 : ℕ) : ℚ) 1
              (line_items grid extensions entities ui)).1.map Prod.snd
          ++ [((1 + entities.length * (tn + 1) + 1
              + (line_items grid extensions entities ui).length : ℕ) : ℚ),
            ((1 + entities.length * (tn + 1) + 1
              + (line_items grid extensions entities ui).length + 1 : ℕ) : ℚ)]
          ++ (exact_height_func ((1 + entities.length * (tn + 1) + 1
              + (line_items grid extensions entities ui).length + 2 : ℕ) : ℚ) 1 ui).1.map
              Prod.snd := by
      unfold all_heights thing_angle_band
      rw [hE, hLpass, hSpass, hband, htah]
    rw [hall]
    have hd1 : (0 : ℚ) < (tn : ℚ) + 1 := by positivity
    have hCnext : (exact_height_func 1 ((tn : ℚ) + 1) entities).2
        = ((1 + entities.length * (tn + 1) : ℕ) : ℚ) := by
      rw [exact_height_func_next]
      push_cast
      ring
    have hE_ub : ∀ y ∈ (exact_height_func 1 ((tn : ℚ) + 1) entities).1.map Prod.snd,
        y < ((1 + entities.length * (tn + 1) : ℕ) : ℚ) := by
      intro y hy
      have := exact_height_func_mem_ub ((tn : ℚ) + 1) hd1 entities 1 y hy
      rw [hCnext] at this
      exact this
    have hL_lb : ∀ y ∈ (exact_height_func ((1 + entities.length * (tn + 1) + 1 : ℕ) : ℚ) 1
        (line_items grid extensions entities ui)).1.map Prod.snd,
        ((1 + entities.length * (tn + 1) + 1 : ℕ) : ℚ) ≤ y :=
      exact_height_func_mem_lb 1 (by norm_num) _ _
    have hLnext : (exact_height_func ((1 + entities.length * (tn + 1) + 1 : ℕ) : ℚ) 1
        (line_items grid extensions entities ui)).2
        = ((1 + entities.length * (tn + 1) + 1
            + (line_items grid extensions entities ui).length : ℕ) : ℚ) := by
      rw [exact_height_func_next]
      push_cast
      ring
    have hL_ub : ∀ y ∈ (exact_height_func ((1 + entities.length * (tn + 1) + 1 : ℕ) : ℚ) 1
        (line_items grid extensions entities ui)).1.map Prod.snd,
        y < ((1 + entities.length * (tn + 1) + 1
            + (line_items grid extensions entities ui).length : ℕ) : ℚ) := by
      intro y hy
      have := exact_height_func_mem_ub 1 (by norm_num) (line_items grid extensions entities ui)
        ((1 + entities.length * (tn + 1) + 1 : ℕ) : ℚ) y hy
      rw [hLnext] at this
      exact this
    have hS_lb : ∀ y ∈ (exact_height_func ((1 + entities.length * (tn + 1) + 1
        + (line_items grid extensions entities ui).length + 2 : ℕ) : ℚ) 1 ui).1.map Prod.snd,
        ((1 + entities.length * (tn + 1) + 1
            + (line_items grid extensions entities ui).length + 2 : ℕ) : ℚ) ≤ y :=
      exact_height_func_mem_lb 1 (by norm_num) _ _
    have pw : ((exact_height_func 1 ((tn : ℚ) + 1) entities).1.map Prod.snd
          ++ (exact_height_func ((1 + entities.length * (tn + 1) + 1 : ℕ) : ℚ) 1
              (line_items grid extensions entities ui)).1.map Prod.snd
          ++ [((1 + entities.length * (tn + 1) + 1
              + (line_items grid extensions entities ui).length : ℕ) : ℚ),
            ((1 + entities.length * (tn + 1) + 1
              + (line_items grid extensions entities ui).length + 1 : ℕ) : ℚ)]
          ++ (exact_height_func ((1 + entities.length * (tn + 1) + 1
              + (line_items grid extensions entities ui).length + 2 : ℕ) : ℚ) 1 ui).1.map
              Prod.snd).Pairwise (· < ·) := by
      rw [List.append_assoc, List.append_assoc, List.pairwise_append]
      refine ⟨exact_height_func_pairwise ((tn : ℚ) + 1) hd1 entities 1, ?_, ?_⟩
      · rw [List.pairwise_append]
        refine ⟨exact_height_func_pairwise 1 (by norm_num) _ _, ?_, ?_⟩
        · rw [List.pairwise_append]
          refine ⟨?_, exact_height_func_pairwise 1 (by norm_num) _ _, ?_⟩
          · refine List.Pairwise.cons (fun y hy => ?_) (List.pairwise_singleton _ _)
            obtain rfl := List.mem_singleton.mp hy
            have : (1 + entities.length * (tn + 1) + 1
                + (line_items grid extensions entities ui).length : ℕ)
                < (1 + entities.length * (tn + 1) + 1
                    + (line_items grid extensions entities ui).length + 1 : ℕ) := by omega
            exact_mod_cast this
          · intro x hx y hy
            have hys := hS_lb y hy
            have hcast : ((1 + entities.length * (tn + 1) + 1
                + (line_items grid extensions entities ui).length + 1 : ℕ) : ℚ)
                < ((1 + entities.length * (tn + 1) + 1
                    + (line_items grid extensions entities ui).length + 2 : ℕ) : ℚ) := by
              exact_mod_cast (by omega : (1 + entities.length * (tn + 1) + 1
                + (line_items grid extensions entities ui).length + 1 : ℕ)
                < (1 + entities.length * (tn + 1) + 1
                    + (line_items grid extensions entities ui).length + 2 : ℕ))
            rcases List.mem_cons.mp hx with rfl | hx'
            · have : ((1 + entities.length * (tn + 1) + 1
                  + (line_items grid extensions entities ui).length : ℕ) : ℚ)
                  < ((1 + entities.length * (tn + 1) + 1
                      + (line_items grid extensions entities ui).length + 2 : ℕ) : ℚ) := by
                exact_mod_cast (by omega : (1 + entities.length * (tn + 1) + 1
                  + (line_items grid extensions entities ui).length : ℕ)
                  < (1 + entities.length * (tn + 1) + 1
                      + (line_items grid extensions entities ui).length + 2 : ℕ))
              linarith
            · obtain rfl := List.mem_singleton.mp hx'
              linarith
        · intro x hx y hy
          have hxu := hL_ub x hx
          rcases List.mem_append.mp hy with hy | hy
          · rcases List.mem_cons.mp hy with rfl | hy'
            · exact hxu
            · obtain rfl := List.mem_singleton.mp hy'
              have : ((1 + entities.length * (tn + 1) + 1
                  + (line_items grid extensions entities ui).length : ℕ) : ℚ)
                  ≤ ((1 + entities.length * (tn + 1) + 1
                      + (line_items grid extensions entities ui).length + 1 : ℕ) : ℚ) := by
                exact_mod_cast (by omega : (1 + entities.length * (tn + 1) + 1
                  + (line_items grid extensions entities ui).length : ℕ)
                  ≤ (1 + entities.length * (tn + 1) + 1
                      + (line_items grid extensions entities ui).length + 1 : ℕ))
              linarith
          · have hys := hS_lb y hy
            have : ((1 + entities.length * (tn + 1) + 1
                + (line_items grid extensions entities ui).length : ℕ) : ℚ)
                ≤ ((1 + entities.length * (tn + 1) + 1
                    + (line_items grid extensions entities ui).length + 2 : ℕ) : ℚ) := by
              exact_mod_cast (by omega : (1 + entities.length * (tn + 1) + 1
                + (line_items grid extensions entities ui).length : ℕ)
                ≤ (1 + entities.length * (tn + 1) + 1
                    + (line_items grid extensions entities ui).length + 2 : ℕ))
            linarith
      · intro x hx y hy
        have hxe := hE_ub x hx
        have hstep : ((1 + entities.length * (tn + 1) : ℕ) : ℚ)
            ≤ ((1 + entities.length * (tn + 1) + 1 : ℕ) : ℚ) := by
          exact_mod_cast (by omega : (1 + entities.length * (tn + 1) : ℕ)
            ≤ (1 + entities.length * (tn + 1) + 1 : ℕ))
        have hstep2 : ((1 + entities.length * (tn + 1) + 1 : ℕ) : ℚ)
            ≤ ((1 + entities.length * (tn + 1) + 1
                + (line_items grid extensions entities ui).length : ℕ) : ℚ) := by
          exact_mod_cast (by omega : (1 + entities.length * (tn + 1) + 1 : ℕ)
            ≤ (1 + entities.length * (tn + 1) + 1
                + (line_items grid extensions entities ui).length : ℕ))
        rcases List.mem_append.mp hy with hy | hy
        · have := hL_lb y hy
          linarith
        · rcases List.mem_append.mp hy with hy | hy
          · rcases List.mem_cons.mp hy with rfl | hy'
            · linarith
            · obtain rfl := List.mem_singleton.mp hy'
              have : ((1 + entities.length * (tn + 1) + 1
                  + (line_items grid extensions entities ui).length : ℕ) : ℚ)
                  ≤ ((1 + entities.length * (tn + 1) + 1
                      + (line_items grid extensions entities ui).length + 1 : ℕ) : ℚ) := by
                exact_mod_cast (by omega : (1 + entities.length * (tn + 1) + 1
                  + (line_items grid extensions entities ui).length : ℕ)
                  ≤ (1 + entities.length * (tn + 1) + 1
                      + (line_items grid extensions entities ui).length + 1 : ℕ))
              linarith
          · have := hS_lb y hy
            have : ((1 + entities.length * (tn + 1) + 1 : ℕ) : ℚ)
                ≤ ((1 + entities.length * (tn + 1) + 1
                    + (line_items grid extensions entities ui).length + 2 : ℕ) : ℚ) := by
              exact_mod_cast (by omega : (1 + entities.length * (tn + 1) + 1 : ℕ)
                ≤ (1 + entities.length * (tn + 1) + 1
                    + (line_items grid extensions entities ui).length + 2 : ℕ))
            linarith
    exact pw.imp ne_of_lt
  · rw [hex1]
    rw [exact_height_func_heights]
    norm_num [List.range_succ]
  · rw [hnext3, hgap, hex2, exact_height_func_heights]
    norm_num [List.range_succ]
  · rw [hnext3, hgap, hex2, hex1]
    norm_num [exact_height_func]

/-- C1 witness: a concrete pipeline with `tn = 0`, one variant per
section. -/
theorem color_enum_height_allocation_witness :
    (4 + 0 + (["E"] : List String).length * (0 + 1)
        + ((["G"] : List String).length + 1 + (["E"] : List String).length
          + (["U"] : List String).length) + (["U"] : List String).length ≤ 2 ^ 24)
    ∧ (all_heights ((0 : ℕ) : ℚ) ["G"] "X" ["E"] ["U"]).Nodup :=
  ⟨by norm_num,
    (color_enum_height_allocation 0 ["G"] "X" ["E"] ["U"] (by norm_num)).2.2.2.2.2.1⟩

/-- `extract` from `color_enum`: scan tokens until `end_tag` (then expect a
column and stop) or end of input; commas are skipped; `|` merges the next
token into the last slot of `vec` (its own `label`/`key` arms are still
pushed); any other punctuation is the `_ => panic!()` arm; every other
token becomes a new `Self::item` slot with its `label`/`key` arms.
The accumulators mirror the source's `vec`, `label_func` and `key_func`
(the latter two as lists of `variant ↦ derived text` arms). -/
def extract_stop (acc : List String) (la ka : List (String × List Char)) :
    List Tok →
      Except Err
        (List String × List (String × List Char) × List (String × List Char) × List Tok)
  | .punct ':' :: rest2 => .ok (acc, la, ka, rest2)
  | _ => .error .UnexpectedToken

def extract (end_tag : String) :
    List Tok → List String → List (String × List Char) → List (String × List Char) →
      Except Err
        (List String × List (String × List Char) × List (String × List Char) × List Tok)
  | [], acc, la, ka => .ok (acc, la, ka, [])
  | .punct c :: rest, acc, la, ka =>
      if c = ',' then extract end_tag rest acc la ka
      else if c = '|' then
        match acc.getLast? with
        | none => .error .UnexpectedToken
        | some last =>
            match rest with
            | [] => .error .UnexpectedToken
            | t2 :: rest2 =>
                extract end_tag rest2
                  (acc.dropLast ++ [last ++ " | Self::" ++ tokString t2])
                  (la ++ [(tokString t2, label_chars (tokString t2).data)])
                  (ka ++ [(tokString t2, key_chars (tokString t2).data)])
      else .error .UnexpectedToken
  | t :: rest, acc, la, ka =>
      if tokString t = end_tag then extract_stop acc la ka rest
      else
        extract end_tag rest (acc ++ ["Self::" ++ tokString t])
          (la ++ [(tokString t, label_chars (tokString t).data)])
          (ka ++ [(tokString t, key_chars (tokString t).data)])

/-- Token rendering of one sectioned-shape entry: the primary identifier
followed by `| alias` pairs. -/
def render_entry (e : String × List String) : List Tok :=
  .ident e.1 :: e.2.flatMap fun a => [.punct '|', .ident a]

/-- Token rendering of a section body: each entry followed by a comma. -/
def render_body (entries : List (String × List String)) : List Tok :=
  entries.flatMap fun e => render_entry e ++ [.punct ',']

/-- The single slot produced for an aliased entry:
`Self::A | Self::B | ...`. -/
def slot_string (e : String × List String) : String :=
  e.2.foldl (fun acc a => acc ++ " | Self::" ++ a) ("Self::" ++ e.1)

/-- The label arms an entry contributes: one per identifier (primary and
aliases). -/
def entry_label_arms (e : String × List String) : List (String × List Char) :=
  (e.1 :: e.2).map fun s => (s, label_chars s.data)

/-- The key arms an entry contributes: one per identifier (primary and
aliases). -/
def entry_key_arms (e : String × List String) : List (String × List Char) :=
  (e.1 :: e.2).map fun s => (s, key_chars s.data)

theorem extract_aliases (end_tag : String) (aliases : List String) :
    ∀ (acc0 : List String) (last : String) (la ka : List (String × List Char))
      (suffix : List Tok),
    extract end_tag ((aliases.flatMap fun a => [.punct '|', .ident a]) ++ suffix)
        (acc0 ++ [last]) la ka
      = extract end_tag suffix
          (acc0 ++ [aliases.foldl (fun acc a => acc ++ " | Self::" ++ a) last])
          (la ++ aliases.map fun s => (s, label_chars s.data))
          (ka ++ aliases.map fun s => (s, key_chars s.data)) := by
  induction aliases with
  | nil => intro acc0 last la ka suffix; simp
  | cons a as ih =>
      intro acc0 last la ka suffix
      show extract end_tag
          (.punct '|' :: .ident a ::
            ((as.flatMap fun x => [.punct '|', .ident x]) ++ suffix))
          (acc0 ++ [last]) la ka = _
      rw [extract]
      simp only [reduceIte, List.getLast?_concat, List.dropLast_concat, tokString]
      rw [ih acc0 (last ++ " | Self::" ++ a) (la ++ [(a, label_chars a.data)])
        (ka ++ [(a, key_chars a.data)]) suffix]
      simp [List.foldl_cons, List.append_assoc]

theorem extract_skips_body (end_tag : String) (entries : List (String × List String))
    (hid : ∀ e ∈ entries, e.1 ≠ end_tag) :
    ∀ (acc : List String) (la ka : List (String × List Char)) (suffix : List Tok),
    extract end_tag (render_body entries ++ suffix) acc la ka
      = extract end_tag suffix (acc ++ entries.map slot_string)
          (la ++ entries.flatMap entry_label_arms)
          (ka ++ entries.flatMap entry_key_arms) := by
  induction entries with
  | nil => intro acc la ka suffix; simp [render_body]
  | cons e es ih =>
      intro acc la ka suffix
      obtain ⟨p, aliases⟩ := e
      have hp : p ≠ end_tag := hid (p, aliases) (by simp)
      have hassoc : render_body ((p, aliases) :: es) ++ suffix
          = .ident p ::
              ((aliases.flatMap fun x => [.punct '|', .ident x]) ++
                (.punct ',' :: (render_body es ++ suffix))) := by
        simp [render_body, render_entry, List.append_assoc]
      rw [hassoc, extract]
      · simp only [tokString, if_neg hp]
        rw [extract_aliases end_tag aliases acc ("Self::" ++ p)
          (la ++ [(p, label_chars p.data)]) (ka ++ [(p, key_chars p.data)])
          (.punct ',' :: (render_body es ++ suffix))]
        rw [show extract end_tag (.punct ',' :: (render_body es ++ suffix)) =
          extract end_tag (render_body es ++ suffix) from by
            funext acc' la' ka'
            rw [extract]
            simp]
        rw [ih (fun x hx => hid x (List.mem_cons_of_mem _ hx)) _ _ _ suffix]
        simp [slot_string, entry_label_arms, entry_key_arms, List.append_assoc]
      · intro c h
        exact Tok.noConfusion h

theorem extract_finds_end_tag (end_tag : String)
    (entries : List (String × List String)) (rest : List Tok)
    (hid : ∀ e ∈ entries, e.1 ≠ end_tag) (acc : List String)
    (la ka : List (String × List Char)) :
    extract end_tag (render_body entries ++ (.ident end_tag :: .punct ':' :: rest))
        acc la ka
      = .ok (acc ++ entries.map slot_string, la ++ entries.flatMap entry_label_arms,
          ka ++ entries.flatMap entry_key_arms, rest) := by
  rw [extract_skips_body end_tag entries hid acc la ka
    (.ident end_tag :: .punct ':' :: rest)]
  rw [extract]
  · simp [tokString, extract_stop]
  · intro c h
    exact Tok.noConfusion h

/-- C6: for every alias entry `A | B` in a section body, both `A` and `B`
receive their own `label`/`key` arms, but the slot list used for indexing
and height assignment gains exactly one (merged) slot per entry — aliases
create no slot of their own. -/
theorem alias_entries_single_slot (end_tag : String)
    (entries : List (String × List String)) (rest : List Tok)
    (hid : ∀ e ∈ entries, e.1 ≠ end_tag) :
    extract end_tag (render_body entries ++ (.ident end_tag :: .punct ':' :: rest))
        [] [] []
      = .ok (entries.map slot_string, entries.flatMap entry_label_arms,
          entries.flatMap entry_key_arms, rest)
    ∧ (entries.map slot_string).length = entries.length
    ∧ (∀ e ∈ entries, ∀ a ∈ e.1 :: e.2,
        (a, label_chars a.data) ∈ entries.flatMap entry_label_arms
        ∧ (a, key_chars a.data) ∈ entries.flatMap entry_key_arms) := by
  refine ⟨?_, by simp, ?_⟩
  · simpa using extract_finds_end_tag end_tag entries rest hid [] [] []
  · intro e he a ha
    constructor
    · exact List.mem_flatMap.mpr ⟨e, he, List.mem_map.mpr ⟨a, ha, rfl⟩⟩
    · exact List.mem_flatMap.mpr ⟨e, he, List.mem_map.mpr ⟨a, ha, rfl⟩⟩

/-- C6 witness: the body `A | B, C` produces two slots and three
`label`/`key` arms. -/
theorem alias_entries_single_slot_witness :
    (∀ e ∈ [("A", ["B"]), ("C", [])], e.1 ≠ "entities") ∧
      extract "entities"
          (render_body [("A", ["B"]), ("C", [])] ++
            [.ident "entities", .punct ':']) [] [] []
        = .ok (["Self::A | Self::B", "Self::C"],
            [("A", label_chars "A".data), ("B", label_chars "B".data),
              ("C", label_chars "C".data)],
            [("A", key_chars "A".data), ("B", key_chars "B".data),
              ("C", key_chars "C".data)], []) := by
  have h : ∀ e ∈ [("A", ["B"]), ("C", [])], e.1 ≠ "entities" := by decide
  refine ⟨h, ?_⟩
  have := (alias_entries_single_slot "entities" [("A", ["B"]), ("C", [])] [] h).1
  rw [this]
  rfl

/-- `assert!(stream.next_value().to_string() == s)`: the next token must
print as the expected keyword. -/
def expect_str (s : String) : List Tok → Except Err (List Tok)
  | t :: rest => if tokString t = s then .ok rest else .error .UnexpectedToken
  | [] => .error .UnexpectedToken

/-- `is_column` / `is_comma`: the next token must be the given
punctuation character (`match_or_panic!` plus `assert!`). -/
def expect_punct (c : Char) : List Tok → Except Err (List Tok)
  | .punct c2 :: rest => if c2 = c then .ok rest else .error .UnexpectedToken
  | _ => .error .UnexpectedToken

/-- `stream.next_value().to_string()`. -/
def next_string : List Tok → Except Err (String × List Tok)
  | t :: rest => .ok (tokString t, rest)
  | [] => .error .UnexpectedToken

/-- What `color_enum` has recovered once its whole input is parsed. -/
structure ColorParsed where
  clear : String
  extensions : String
  grid : List String
  entities : List String
  ui : List String
  label_arms : List (String × List Char)
  key_arms : List (String × List Char)

/-- The parsing skeleton of `color_enum`: the `clear` and `extensions`
headers each followed by `:`, one identifier and `,`; then `grid :` and
three `extract` calls with end tags `entities`, `ui` and `""` (the last
runs to end of input).  An `.error` result models the panic aborting the
pass before any output text is produced. -/
def color_parse (ts : List Tok) : Except Err ColorParsed := do
  let ts ← expect_str "clear" ts
  let ts ← expect_punct ':' ts
  let (clear, ts) ← next_string ts
  let ts ← expect_punct ',' ts
  let ts ← expect_str "extensions" ts
  let ts ← expect_punct ':' ts
  let (ext, ts) ← next_string ts
  let ts ← expect_punct ',' ts
  let ts ← expect_str "grid" ts
  let ts ← expect_punct ':' ts
  let la0 := [(clear, label_chars clear.data), (ext, label_chars ext.data)]
  let ka0 := [(clear, key_chars clear.data), (ext, key_chars ext.data)]
  let (gvec, la1, ka1, ts) ← extract "entities" ts [] la0 ka0
  let (evec, la2, ka2, ts) ← extract "ui" ts [] la1 ka1
  let (uvec, la3, ka3, _) ← extract "" ts [] la2 ka2
  pure ⟨clear, ext, gvec, evec, uvec, la3, ka3⟩

/-- The fixed required order of the sectioned-shape keywords. -/
def required_keywords : List String :=
  ["clear", "extensions", "grid", "entities", "ui"]

/-- Token rendering of one plain (alias-free) section:
`keyword : v1 , v2 , ...` with a comma after each variant. -/
def render_section (s : String × List String) : List Tok :=
  .ident s.1 :: .punct ':' :: render_body (s.2.map fun v => (v, []))

/-- Token rendering of a full sectioned-shape input. -/
def render_input (secs : List (String × List String)) : List Tok :=
  secs.flatMap render_section

theorem render_input_cons (s : String × List String)
    (secs : List (String × List String)) :
    render_input (s :: secs) = render_section s ++ render_input secs := by
  simp [render_input]

theorem render_body_cons (e : String × List String)
    (es : List (String × List String)) :
    render_body (e :: es) = render_entry e ++ [.punct ','] ++ render_body es := by
  simp [render_body]

theorem render_body_nil : render_body [] = [] := rfl

theorem render_input_nil : render_input [] = [] := rfl

theorem extract_ident_then_column_fails (end_tag w : String) (hw : w ≠ end_tag)
    (rest : List Tok) (acc : List String) (la ka : List (String × List Char)) :
    extract end_tag (.ident w :: .punct ':' :: rest) acc la ka
      = .error .UnexpectedToken := by
  rw [extract]
  · simp only [tokString, if_neg hw]
    rw [extract, if_neg (by decide), if_neg (by decide)]
  · intro c h
    exact Tok.noConfusion h

theorem length_eq_five_exists {α : Type} (l : List α) (h : l.length = 5) :
    ∃ a b c d e, l = [a, b, c, d, e] := by
  rcases l with _ | ⟨a, l⟩
  · simp at h
  rcases l with _ | ⟨b, l⟩
  · simp at h
  rcases l with _ | ⟨c, l⟩
  · simp at h
  rcases l with _ | ⟨d, l⟩
  · simp at h
  rcases l with _ | ⟨e, l⟩
  · simp at h
  rcases l with _ | ⟨f, l⟩
  · exact ⟨a, b, c, d, e, rfl⟩
  · simp [List.length_cons] at h

/-- C7: a sectioned-shape input whose five section keywords appear out of
the fixed required order (`clear`, `extensions`, `grid`, `entities`, `ui`)
makes `color_enum`'s parse abort with `UnexpectedToken` — an `.error`
result, produced before any output text exists. -/
theorem out_of_order_sections_fail (secs : List (String × List String))
    (hperm : (secs.map Prod.fst).Perm required_keywords)
    (hne : secs.map Prod.fst ≠ required_keywords)
    (hbody : ∀ s ∈ secs, s.2 ≠ [] ∧ ∀ v ∈ s.2, v ∉ required_keywords) :
    color_parse (render_input secs) = .error .UnexpectedToken := by
  have hlen : secs.length = 5 := by simpa using hperm.length_eq
  obtain ⟨s1, s2, s3, s4, s5, rfl⟩ := length_eq_five_exists secs hlen
  obtain ⟨k1, b1⟩ := s1
  obtain ⟨k2, b2⟩ := s2
  obtain ⟨k3, b3⟩ := s3
  obtain ⟨k4, b4⟩ := s4
  obtain ⟨k5, b5⟩ := s5
  obtain ⟨hb1ne, hb1⟩ := hbody (k1, b1) (by simp)
  obtain ⟨hb2ne, hb2⟩ := hbody (k2, b2) (by simp)
  obtain ⟨hb3ne, hb3⟩ := hbody (k3, b3) (by simp)
  obtain ⟨hb4ne, hb4⟩ := hbody (k4, b4) (by simp)
  have hid3 : ∀ e ∈ b3.map fun v => (v, ([] : List String)), e.1 ≠ "entities" := by
    intro e he
    obtain ⟨v, hv, rfl⟩ := List.mem_map.mp he
    intro hv2
    have hv' : v = "entities" := hv2
    exact hb3 v hv (by rw [hv']; decide)
  have hid4 : ∀ e ∈ b4.map fun v => (v, ([] : List String)), e.1 ≠ "ui" := by
    intro e he
    obtain ⟨v, hv, rfl⟩ := List.mem_map.mp he
    intro hv2
    have hv' : v = "ui" := hv2
    exact hb4 v hv (by rw [hv']; decide)
  by_cases hk1 : k1 = "clear"
  case neg =>
    simp [render_input_cons, render_section, color_parse, expect_str, tokString,
      hk1, Bind.bind, Except.bind]
  subst hk1
  rcases b1 with _ | ⟨v1, b1t⟩
  · exact absurd rfl hb1ne
  rcases b1t with _ | ⟨w1, b1t'⟩
  swap
  · have hw : w1 ≠ "extensions" := fun he => hb1 w1 (by simp) (by rw [he]; decide)
    simp [render_input_cons, render_section, render_body_cons, render_body_nil, render_input_nil, render_entry,
      color_parse, expect_str, expect_punct, next_string, tokString, hw,
      Bind.bind, Except.bind]
  by_cases hk2 : k2 = "extensions"
  case neg =>
    simp [render_input_cons, render_section, render_body_cons, render_body_nil, render_input_nil, render_entry,
      color_parse, expect_str, expect_punct, next_string, tokString, hk2,
      Bind.bind, Except.bind]
  subst hk2
  rcases b2 with _ | ⟨v2, b2t⟩
  · exact absurd rfl hb2ne
  rcases b2t with _ | ⟨w2, b2t'⟩
  swap
  · have hw : w2 ≠ "grid" := fun he => hb2 w2 (by simp) (by rw [he]; decide)
    simp [render_input_cons, render_section, render_body_cons, render_body_nil, render_input_nil, render_entry,
      color_parse, expect_str, expect_punct, next_string, tokString, hw,
      Bind.bind, Except.bind]
  by_cases hk3 : k3 = "grid"
  case neg =>
    simp [render_input_cons, render_section, render_body_cons, render_body_nil, render_input_nil, render_entry,
      color_parse, expect_str, expect_punct, next_string, tokString, hk3,
      Bind.bind, Except.bind]
  subst hk3
  by_cases hk4 : k4 = "entities"
  case neg =>
    simp only [render_input_cons, render_section, render_body_cons, render_body_nil, render_input_nil, render_entry,
      List.map_cons, List.map_nil, List.flatMap_nil, List.append_assoc,
      List.append_nil, List.nil_append, List.cons_append, List.singleton_append]
    simp [color_parse, expect_str, expect_punct, next_string, tokString,
      Bind.bind, Except.bind]
    rw [extract_skips_body "entities" _ hid3,
      extract_ident_then_column_fails "entities" k4 hk4]
  subst hk4
  by_cases hk5 : k5 = "ui"
  case pos =>
    subst hk5
    simp [required_keywords] at hne
  simp only [render_input_cons, render_section, render_body_cons, render_body_nil, render_input_nil, render_entry,
    List.map_cons, List.map_nil, List.flatMap_nil, List.append_assoc,
    List.append_nil, List.nil_append, List.cons_append, List.singleton_append]
  simp [color_parse, expect_str, expect_punct, next_string, tokString,
    Bind.bind, Except.bind]
  rw [extract_finds_end_tag "entities" _ _ hid3]
  simp
  rw [extract_skips_body "ui" _ hid4,
    extract_ident_then_column_fails "ui" k5 hk5]

/-- C7 witness: swapping `entities` and `ui` aborts the parse. -/
theorem out_of_order_sections_fail_witness :
    ((([("clear", ["A"]), ("extensions", ["B"]), ("grid", ["C"]),
        ("ui", ["D"]), ("entities", ["E"])] :
          List (String × List String)).map Prod.fst).Perm required_keywords
      ∧ ([("clear", ["A"]), ("extensions", ["B"]), ("grid", ["C"]),
          ("ui", ["D"]), ("entities", ["E"])] :
            List (String × List String)).map Prod.fst ≠ required_keywords)
    ∧ color_parse (render_input
        [("clear", ["A"]), ("extensions", ["B"]), ("grid", ["C"]),
          ("ui", ["D"]), ("entities", ["E"])]) = .error .UnexpectedToken := by
  refine ⟨⟨?_, by decide⟩, ?_⟩
  · simp [required_keywords]
    exact List.Perm.swap _ _ _
  · exact out_of_order_sections_fail
      [("clear", ["A"]), ("extensions", ["B"]), ("grid", ["C"]),
        ("ui", ["D"]), ("entities", ["E"])]
      (by simp [required_keywords]
          exact List.Perm.swap _ _ _)
      (by decide) (by decide)

end HillVacuum
